import Mathlib

/-!
Shallow embedding of `meteoCocito.py` (StazioneMeteoCocito/meteoCocitoPy).

Python floats are modelled as exact rationals (`ℚ`), Python `datetime.datetime`
as a record of six natural-number components compared lexicographically, and
code that can raise as `Except String`.  CSV lines are modelled already split:
`none` stands for a line with fewer than two comma-separated fields (skipped by
the code); `some (t, v)` stands for a line whose first field parses to the
timestamp `t` and whose second field parses to the float `v`.
-/

/-- Python `datetime.datetime` restricted to the components the program uses
(microseconds are never produced by the parsed CSV rows).  Comparison in
Python is lexicographic on these components. -/
structure DateTime where
  year : ℕ
  month : ℕ
  day : ℕ
  hour : ℕ
  minute : ℕ
  second : ℕ
deriving DecidableEq

/-- Strict `<` on datetimes: lexicographic on the six components, exactly as
Python compares `datetime` values. -/
def dtLt (a b : DateTime) : Bool :=
  decide (a.year < b.year) ||
  (decide (a.year = b.year) && (decide (a.month < b.month) ||
  (decide (a.month = b.month) && (decide (a.day < b.day) ||
  (decide (a.day = b.day) && (decide (a.hour < b.hour) ||
  (decide (a.hour = b.hour) && (decide (a.minute < b.minute) ||
  (decide (a.minute = b.minute) && decide (a.second < b.second))))))))))

/-- Non-strict `≤` on datetimes: for a strict total order, `a ≤ b ↔ ¬ b < a`. -/
def dtLe (a b : DateTime) : Bool := !(dtLt b a)

/-- Model of Python `int(s)` on the nonnegative decimal strings used as
year/month/day directory names (returns `none` when the string would make
`int` raise `ValueError`). -/
def parseNat (s : String) : Option ℕ :=
  if s.data = [] then none
  else if s.data.all Char.isDigit then
    some (s.data.foldl (fun n c => n * 10 + (c.toNat - 48)) 0)
  else none

/-- Model of the glob pattern `2*` applied to a path component: the name
starts with the character `2`. -/
def startsWith2 (s : String) : Bool := s.data.take 1 == [ '2' ]

/-- Model of the glob pattern `*`: glob does not match names that start with
a dot (hidden entries). -/
def notHidden (s : String) : Bool := !(s.data.take 1 == [ '.' ])

/-- Model of the glob pattern `*.csv`: the name ends in `.csv` and is not
hidden. -/
def globCsv (s : String) : Bool :=
  (s.data.drop (s.data.length - 4) == [ '.', 'c', 's', 'v' ]) && notHidden s

/-- `DataType` from the source: a weather data type of the catalog. -/
structure DataType where
  symbol : String
  unit : String
  fileName : String
  italianName : String
  precision : ℕ
deriving DecidableEq

namespace DataTypeArchive

/-- The fixed six-entry catalog `DataTypeArchive.data`.  Every entry is
constructed with the default `precision = 2`. -/
def data : List DataType :=
  [ ⟨ "T", "°C", "temperature.csv", "Temperatura", 2⟩,
    ⟨ "H", "%", "humidity.csv", "Umidità", 2⟩,
    ⟨ "P", "hPa", "pressure.csv", "Pressione", 2⟩,
    ⟨ "PM10", "µg/m³", "pm10.csv", "PM10", 2⟩,
    ⟨ "PM25", "µg/m³", "pm25.csv", "PM2,5", 2⟩,
    ⟨ "S", "µg/m³", "smoke.csv", "Fumo e vapori infiammabili", 2⟩ ]

/-- `DataTypeArchive.fromSymbol`: first catalog entry with the given symbol. -/
def fromSymbol (symbol : String) : Option DataType :=
  data.find? (fun dt => dt.symbol == symbol)

/-- `DataTypeArchive.fromUnit`: first catalog entry with the given unit. -/
def fromUnit (unit : String) : Option DataType :=
  data.find? (fun dt => dt.unit == unit)

/-- `DataTypeArchive.fromFileName`: first catalog entry with the given file
name. -/
def fromFileName (fileName : String) : Option DataType :=
  data.find? (fun dt => dt.fileName == fileName)

/-- `DataTypeArchive.fromItalianName`: first catalog entry with the given
Italian name. -/
def fromItalianName (italianName : String) : Option DataType :=
  data.find? (fun dt => dt.italianName == italianName)

end DataTypeArchive

/-- The `DataTypeArchive.Symbols` enum. -/
inductive Symbols where
  | temperature
  | humidity
  | pressure
  | pm10
  | pm25
  | smoke
deriving DecidableEq

/-- The `.value` of each enum member. -/
def Symbols.value : Symbols → String
  | .temperature => "T"
  | .humidity => "H"
  | .pressure => "P"
  | .pm10 => "PM10"
  | .pm25 => "PM25"
  | .smoke => "S"

/-- Model of the enum constructor call `DataTypeArchive.Symbols(s)`: `none`
when no member has value `s` (Python raises `ValueError` there). -/
def symbolsOfString (s : String) : Option Symbols :=
  if s == "T" then some .temperature
  else if s == "H" then some .humidity
  else if s == "P" then some .pressure
  else if s == "PM10" then some .pm10
  else if s == "PM25" then some .pm25
  else if s == "S" then some .smoke
  else none

/-- Round a rational to the nearest integer, ties to even: the idealised
semantics of Python's built-in `round` on one argument. -/
def roundHalfEven (q : ℚ) : ℤ :=
  let f : ℤ := q.floor
  let r : ℚ := q - (f : ℚ)
  if r < 1/2 then f
  else if 1/2 < r then f + 1
  else if f % 2 = 0 then f else f + 1

/-- Python `round(q, p)`: round to `p` decimal digits, ties to even. -/
def pyRound (q : ℚ) (p : ℕ) : ℚ :=
  ((roundHalfEven (q * (10 : ℚ) ^ p) : ℤ) : ℚ) / (10 : ℚ) ^ p

/-- Python `int()` applied to a float: truncation toward zero. -/
def truncQ (q : ℚ) : ℤ := if 0 ≤ q then q.floor else q.ceil

/-- The precision looked up by `Value.__init__`:
`DataTypeArchive.fromSymbol(symbol.value).precision`.  The `none` branch is
unreachable because every enum symbol is in the catalog (Python would raise
`AttributeError` on `None.precision`). -/
def precisionOfSymbol (s : Symbols) : ℕ :=
  match DataTypeArchive.fromSymbol s.value with
  | some dt => dt.precision
  | none => 0

/-- `Value` from the source: a reading with its rounded value, its symbol and
its acquisition instant. -/
structure Value where
  value : ℚ
  symbol : Symbols
  instant : DateTime
deriving DecidableEq

/-- `Value.__init__`: the stored value is the input rounded to the precision
of the data type owning the symbol. -/
def Value.make (value : ℚ) (symbol : Symbols) (instant : DateTime) : Value :=
  ⟨pyRound value (precisionOfSymbol symbol), symbol, instant⟩

/-- A per-day CSV file of the archive, with its file name and its already
split lines (see the module comment for the line model). -/
structure CsvFile where
  name : String
  lines : List (Option (DateTime × ℚ))
deriving DecidableEq

/-- A day directory: its path component and its entries. -/
structure DayDir where
  name : String
  files : List CsvFile
deriving DecidableEq

/-- A month directory: its path component and its day directories. -/
structure MonthDir where
  name : String
  days : List DayDir
deriving DecidableEq

/-- A year directory under `dati/`: its path component and its month
directories. -/
structure YearDir where
  name : String
  months : List MonthDir
deriving DecidableEq

/-- Sequence a list of fallible scans, concatenating their results in order;
the first error aborts the whole scan, exactly as an uncaught Python
exception aborts `betweenDatetimes`. -/
def collectE {α : Type} : List (Except String (List α)) → Except String (List α)
  | [] => .ok []
  | x :: xs =>
    match x with
    | .error msg => .error msg
    | .ok l =>
      match collectE xs with
      | .error msg => .error msg
      | .ok ls => .ok (l ++ ls)

/-- Processing of one CSV line inside `betweenDatetimes`: a line with fewer
than two fields is skipped; otherwise the row is kept only when its timestamp
`dateT` satisfies neither `start > dateT` nor `end < dateT`, and then yields
`Value(float(l[1]), type, dateT)`. -/
def scanLine (start stop : DateTime) (ft : Symbols) : Option (DateTime × ℚ) → List Value
  | none => []
  | some (t, raw) =>
    if dtLt t start || dtLt stop t then [] else [Value.make raw ft t]

/-- All lines of one file, in order. -/
def scanLines (start stop : DateTime) (ft : Symbols) : List (Option (DateTime × ℚ)) → List Value
  | [] => []
  | line :: rest => scanLine start stop ft line ++ scanLines start stop ft rest

/-- Processing of one CSV file: the file name is mapped to a catalog entry
(`fromFileName`, crash on `None`), the entry's symbol to an enum member
(`Symbols(...)`, crash on unknown value), then every line is processed. -/
def scanFile (start stop : DateTime) (file : CsvFile) : Except String (List Value) :=
  match DataTypeArchive.fromFileName file.name with
  | none => .error ("no catalog entry for file " ++ file.name)
  | some dt =>
    match symbolsOfString dt.symbol with
    | none => .error ("no enum member for symbol " ++ dt.symbol)
    | some ft => .ok (scanLines start stop ft file.lines)

/-- Gregorian leap year, as validated by `strptime`. -/
def isLeap (y : ℕ) : Bool := (y % 4 == 0 && !(y % 100 == 0)) || y % 400 == 0

/-- Days in a month, as validated by `strptime`. -/
def daysInMonth (y m : ℕ) : ℕ :=
  if m == 2 then (if isLeap y then 29 else 28)
  else if m == 4 || m == 6 || m == 9 || m == 11 then 30
  else 31

/-- Validity of the pivot date string for
`strptime("%Y-%m-%d")`/`datetime`: four-digit year at most 9999 (and at least
1), month 1..12, day within the month. -/
def validDate (y m d : ℕ) : Bool :=
  decide (1 ≤ y) && decide (y ≤ 9999) && decide (1 ≤ m) && decide (m ≤ 12) &&
  decide (1 ≤ d) && decide (d ≤ daysInMonth y m)

/-- Processing of one day directory: parse the day number, build the `pivot`
datetime at midnight of that day, skip the whole directory when
`start > pivot or pivot > end`, otherwise scan every `*.csv` entry. -/
def scanDay (start stop : DateTime) (year month : ℕ) (d : DayDir) : Except String (List Value) :=
  match parseNat d.name with
  | none => .error ("day directory name is not a number: " ++ d.name)
  | some day =>
    if validDate year month day then
      let pivot : DateTime := ⟨year, month, day, 0, 0, 0⟩
      if dtLt pivot start || dtLt stop pivot then .ok []
      else collectE ((d.files.filter (fun f => globCsv f.name)).map (scanFile start stop))
    else .error ("invalid pivot date")

/-- Processing of one month directory: parse the month number, then scan
every (non-hidden) day entry. -/
def scanMonth (start stop : DateTime) (year : ℕ) (m : MonthDir) : Except String (List Value) :=
  match parseNat m.name with
  | none => .error ("month directory name is not a number: " ++ m.name)
  | some month =>
    collectE ((m.days.filter (fun d => notHidden d.name)).map (scanDay start stop year month))

/-- Processing of one year directory: parse the year number, then scan every
(non-hidden) month entry. -/
def scanYear (start stop : DateTime) (y : YearDir) : Except String (List Value) :=
  match parseNat y.name with
  | none => .error ("year directory name is not a number: " ++ y.name)
  | some year =>
    collectE ((y.months.filter (fun m => notHidden m.name)).map (scanMonth start stop year))

/-- `DataArchive.betweenDatetimes`: scan every year directory matching the
glob `dati/2*`, in order. -/
def betweenDatetimes (archive : List YearDir) (start stop : DateTime) : Except String (List Value) :=
  collectE ((archive.filter (fun y => startsWith2 y.name)).map (scanYear start stop))

/-- The per-symbol entry of `tempMap` in `Stats.__init__`: the raw values and
their integer truncations, in arrival order. -/
structure TempEntry where
  list : List ℚ
  iList : List ℤ
deriving DecidableEq

/-- The per-symbol entry of `resultMap` built during the first pass of
`Stats.__init__`. -/
structure AggEntry where
  max : Value
  min : Value
  itemCount : ℕ
deriving DecidableEq

/-- The per-symbol entry of `resultMap` after the second loop added `stdev`,
`mean` and `mode`.  Python stores the float `stdev`, an irrational square
root; the embedding records its square `stdevSq` (the sample variance), which
determines it: the code's `stdev` is the nonnegative square root of
`stdevSq`. -/
structure StatEntry where
  max : Value
  min : Value
  itemCount : ℕ
  stdevSq : ℚ
  mean : ℚ
  mode : ℚ
deriving DecidableEq

/-- The instant `datetime.datetime.now()` captured once when `Value.__init__`
was defined, used by the two sentinel readings (its actual components are
irrelevant to the program logic). -/
def defaultInstant : DateTime := ⟨2022, 1, 1, 0, 0, 0⟩

/-- The seeded running maximum `Value(-10E6)` (default symbol `temperature`,
default instant). -/
def sentinelMax : Value := Value.make (-10000000) Symbols.temperature defaultInstant

/-- The seeded running minimum `Value(10E6)`. -/
def sentinelMin : Value := Value.make 10000000 Symbols.temperature defaultInstant

/-- Lookup in an insertion-ordered association list, the model of a Python
dict keyed by `Symbols`. -/
def lookupEntry {α : Type} : List (Symbols × α) → Symbols → Option α
  | [], _ => none
  | (k, v) :: rest, s => if k = s then some v else lookupEntry rest s

/-- Assignment `m[s] = v` on a Python dict: update in place when the key
exists, append otherwise. -/
def setEntry {α : Type} : List (Symbols × α) → Symbols → α → List (Symbols × α)
  | [], s, v => [(s, v)]
  | (k, w) :: rest, s, v => if k = s then (k, v) :: rest else (k, w) :: setEntry rest s v

/-- Current `tempMap` entry for a symbol, or the fresh
`{"list": [], "iList": []}` inserted at first encounter. -/
def getTempEntry (m : List (Symbols × TempEntry)) (k : Symbols) : TempEntry :=
  match lookupEntry m k with
  | some t => t
  | none => ⟨[], []⟩

/-- Current `resultMap` entry for a symbol, or the fresh
`{"max": Value(-10E6), "min": Value(10E6), "itemCount": 0}` inserted at first
encounter. -/
def getAggEntry (m : List (Symbols × AggEntry)) (k : Symbols) : AggEntry :=
  match lookupEntry m k with
  | some a => a
  | none => ⟨sentinelMax, sentinelMin, 0⟩

/-- The body of the first loop of `Stats.__init__` for one element: ensure
both map entries exist, update `max`, `elif` update `min`, append the raw and
truncated values, and increment `itemCount`. -/
def statsStep (acc : List (Symbols × TempEntry) × List (Symbols × AggEntry)) (el : Value) :
    List (Symbols × TempEntry) × List (Symbols × AggEntry) :=
  let te0 := getTempEntry acc.1 el.symbol
  let a0 := getAggEntry acc.2 el.symbol
  let a1 :=
    if a0.max.value < el.value then { a0 with max := el }
    else if el.value < a0.min.value then { a0 with min := el }
    else a0
  (setEntry acc.1 el.symbol ⟨te0.list ++ [el.value], te0.iList ++ [truncQ el.value]⟩,
   setEntry acc.2 el.symbol { a1 with itemCount := a1.itemCount + 1 })

/-- The first loop of `Stats.__init__` over the whole data list. -/
def statsPass (dataList : List Value) :
    List (Symbols × TempEntry) × List (Symbols × AggEntry) :=
  dataList.foldl statsStep ([], [])

/-- `statistics.mean` (exact): sum divided by length. -/
def meanQ (xs : List ℚ) : ℚ := xs.sum / (xs.length : ℚ)

/-- The sample variance computed inside `statistics.stdev`:
`Σ (x - mean)² / (n - 1)`; the code's `stdev` is its square root. -/
def sampleVarQ (xs : List ℚ) : ℚ :=
  ((xs.map (fun x => (x - meanQ xs) ^ 2)).sum) / ((xs.length : ℚ) - 1)

/-- `statistics.stdev` up to the final square root: raises
`StatisticsError` on fewer than two data points, otherwise returns the sample
variance (whose nonnegative square root is the value Python stores). -/
def stdevE (xs : List ℚ) : Except String ℚ :=
  if xs.length < 2 then .error ("stdev requires at least two data points")
  else .ok (sampleVarQ xs)

/-- The second loop of `Stats.__init__`: for every symbol of `resultMap`, in
insertion order, compute `stdev` (raising on singleton lists), `mean`, and the
field labeled `mode` (the mean of the truncated values). -/
def statsFinish (tempMap : List (Symbols × TempEntry)) :
    List (Symbols × AggEntry) → Except String (List (Symbols × StatEntry))
  | [] => .ok []
  | (s, a) :: rest =>
    let te := getTempEntry tempMap s
    match stdevE te.list with
    | .error msg => .error msg
    | .ok sv =>
      match statsFinish tempMap rest with
      | .error msg => .error msg
      | .ok out =>
        .ok ((s, ⟨a.max, a.min, a.itemCount, sv, meanQ te.list,
                  meanQ (te.iList.map (fun i => (Int.cast i : ℚ)))⟩) :: out)

/-- `Stats.__init__`: the `results` map, or the uncaught exception that
aborts construction. -/
def Stats.make (dataList : List Value) : Except String (List (Symbols × StatEntry)) :=
  statsFinish (statsPass dataList).1 (statsPass dataList).2

/-- The values (in order) of the readings of one symbol in a data list: the
reference sequence against which the aggregates are specified. -/
def valsOf (s : Symbols) : List Value → List ℚ
  | [] => []
  | v :: l => if v.symbol = s then v.value :: valsOf s l else valsOf s l

/-- Total `itemCount` of a pass-level result map. -/
def countSum (m : List (Symbols × AggEntry)) : ℕ :=
  (m.map (fun p => p.2.itemCount)).sum

/-- Total `itemCount` of a finished result map. -/
def resultCountSum (res : List (Symbols × StatEntry)) : ℕ :=
  (res.map (fun p => p.2.itemCount)).sum

/-- Every value a scan may return: its timestamp was accepted by the row
filter and its stored value is an input rounded to two decimals. -/
def GoodVal (start stop : DateTime) (v : Value) : Prop :=
  dtLt v.instant start = false ∧ dtLt stop v.instant = false ∧
  ∃ raw : ℚ, v.value = pyRound raw 2

/-- The `min.value` field of the finished aggregate of one symbol, when the
construction succeeded and the symbol is present. -/
def minValueField (x : Except String (List (Symbols × StatEntry))) (s : Symbols) : Option ℚ :=
  match x with
  | .error _ => none
  | .ok res => (lookupEntry res s).map (fun e => e.min.value)

/-- The `mode` field of the finished aggregate of one symbol. -/
def modeField (x : Except String (List (Symbols × StatEntry))) (s : Symbols) : Option ℚ :=
  match x with
  | .error _ => none
  | .ok res => (lookupEntry res s).map (fun e => e.mode)

/-- The pass-level `resultMap` entry of one symbol. -/
def passAggOf (l : List Value) (s : Symbols) : Option AggEntry :=
  lookupEntry (statsPass l).2 s

/-- A sample instant. -/
def instA : DateTime := ⟨2024, 1, 1, 8, 0, 0⟩

/-- A later sample instant. -/
def instB : DateTime := ⟨2024, 1, 1, 9, 0, 0⟩

/-- A still later sample instant. -/
def instC : DateTime := ⟨2024, 1, 1, 10, 0, 0⟩

/-- Two temperature readings with nondecreasing values: on this input the
`elif`-chained update never takes the `min` branch. -/
def c1Input : List Value :=
  [Value.make 1 Symbols.temperature instA, Value.make 2 Symbols.temperature instB]

/-- A single temperature reading. -/
def c2Input : List Value := [Value.make 5 Symbols.temperature instA]

/-- The timestamp of the one archived row in the C3 scenario. -/
def c3Row : DateTime := ⟨2023, 5, 10, 9, 0, 0⟩

/-- A scan start with nonzero time of day, earlier than `c3Row`. -/
def c3Start : DateTime := ⟨2023, 5, 10, 8, 0, 0⟩

/-- A scan end later than `c3Row`. -/
def c3Stop : DateTime := ⟨2023, 5, 10, 10, 0, 0⟩

/-- Midnight of the day of `c3Row`. -/
def c3DayStart : DateTime := ⟨2023, 5, 10, 0, 0, 0⟩

/-- An archive holding exactly one temperature row, at `c3Row`. -/
def c3Archive : List YearDir :=
  [⟨ "2023", [⟨ "05", [⟨ "10", [⟨ "temperature.csv", [some (c3Row, 5)]⟩]⟩]⟩]⟩]

/-- The timestamp of the one archived row in the C4 scenario. -/
def c4Row : DateTime := ⟨2024, 3, 4, 12, 0, 0⟩

/-- Midnight of the day of `c4Row`. -/
def c4Start : DateTime := ⟨2024, 3, 4, 0, 0, 0⟩

/-- The last second of the day of `c4Row`. -/
def c4Stop : DateTime := ⟨2024, 3, 4, 23, 59, 59⟩

/-- An archive holding exactly one humidity row, at `c4Row`. -/
def c4Archive : List YearDir :=
  [⟨ "2024", [⟨ "03", [⟨ "04", [⟨ "humidity.csv", [some (c4Row, 50)]⟩]⟩]⟩]⟩]

/-- The reading produced by scanning `c4Archive` over the whole day. -/
def c4Val : Value := Value.make 50 Symbols.humidity c4Row

/-- Two temperature readings with values 1 and 2. -/
def c5Input : List Value :=
  [Value.make 1 Symbols.temperature instA, Value.make 2 Symbols.temperature instB]

/-- The finished result map of `Stats` on `c5Input`. -/
def c5Res : List (Symbols × StatEntry) :=
  [(Symbols.temperature,
    ⟨Value.make 2 Symbols.temperature instB, sentinelMin, 2, 1/2, 3/2, 3/2⟩)]

/-- Three temperature readings with values 1, 1, 4: the most frequent value
is 1, yet the field labeled `mode` comes out as 2. -/
def c6Input : List Value :=
  [Value.make 1 Symbols.temperature instA, Value.make 1 Symbols.temperature instB,
   Value.make 4 Symbols.temperature instC]

/-- The finished aggregate of `Stats` on `c6Input`. -/
def c6Entry : StatEntry :=
  ⟨Value.make 4 Symbols.temperature instC, Value.make 1 Symbols.temperature instB, 3, 3, 2, 2⟩

/-- The finished result map of `Stats` on `c6Input`. -/
def c6Res : List (Symbols × StatEntry) := [(Symbols.temperature, c6Entry)]

/-- A single pressure reading. -/
def c7Input : List Value := [Value.make 7 Symbols.pressure instA]

/-- Two temperature readings with values 1 and 3. -/
def c7Pair : List Value :=
  [Value.make 1 Symbols.temperature instA, Value.make 3 Symbols.temperature instB]

/-- The finished aggregate of `Stats` on `c7Pair`. -/
def c7PairEntry : StatEntry :=
  ⟨Value.make 3 Symbols.temperature instB, sentinelMin, 2, 2, 2, 2⟩

/-- The finished result map of `Stats` on `c7Pair`. -/
def c7PairRes : List (Symbols × StatEntry) := [(Symbols.temperature, c7PairEntry)]

/-- The timestamp of the one archived row in the C8 scenario. -/
def c8Row : DateTime := ⟨2025, 6, 7, 12, 30, 0⟩

/-- Midnight of the day of `c8Row`. -/
def c8Start : DateTime := ⟨2025, 6, 7, 0, 0, 0⟩

/-- The last second of the day of `c8Row`. -/
def c8Stop : DateTime := ⟨2025, 6, 7, 23, 59, 59⟩

/-- An archive holding one pm10 row whose raw value 12.3456 needs rounding. -/
def c8Archive : List YearDir :=
  [⟨ "2025", [⟨ "06", [⟨ "07", [⟨ "pm10.csv", [some (c8Row, 123456/10000)]⟩]⟩]⟩]⟩]

/-- The reading produced by scanning `c8Archive` over the whole day. -/
def c8Val : Value := Value.make (123456/10000) Symbols.pm10 c8Row

/-- A year directory whose name does not start with `2`, holding a row. -/
def c10Year : YearDir :=
  ⟨ "1999", [⟨ "05", [⟨ "10", [⟨ "temperature.csv", [some (⟨1999, 5, 10, 9, 0, 0⟩, 5)]⟩]⟩]⟩]⟩

/-- Midnight of the day of the `c10Year` row. -/
def c10Start : DateTime := ⟨1999, 5, 10, 0, 0, 0⟩

/-- An instant after the `c10Year` row. -/
def c10Stop : DateTime := ⟨1999, 5, 10, 23, 0, 0⟩

/-- With `start > end`, no instant can pass both halves of the row filter. -/
theorem dt_absurd (s e t : DateTime) (h1 : dtLt t s = false) (h2 : dtLt e t = false)
    (h3 : dtLt e s = true) : False := by
  simp only [dtLt, Bool.or_eq_true, Bool.and_eq_true, decide_eq_true_eq,
    Bool.or_eq_false_iff, Bool.and_eq_false_iff, decide_eq_false_iff_not] at h1 h2 h3
  omega

/-- Lookup after assignment on the association-list model of a dict. -/
theorem lookupEntry_setEntry {α : Type} (m : List (Symbols × α)) (s t : Symbols) (v : α) :
    lookupEntry (setEntry m s v) t = if s = t then some v else lookupEntry m t := by
  induction m with
  | nil => simp [setEntry, lookupEntry]
  | cons kv rest ih =>
    obtain ⟨k, w⟩ := kv
    by_cases hks : k = s
    · subst hks
      by_cases hkt : k = t <;> simp [setEntry, lookupEntry, hkt]
    · by_cases hkt : k = t
      · subst hkt
        have hst : ¬ s = k := fun h => hks h.symm
        simp [setEntry, lookupEntry, hks, hst]
      · simp [setEntry, lookupEntry, hks, hkt, ih]

/-- The tempMap component produced by one step of the first loop. -/
theorem statsStep_fst (acc : List (Symbols × TempEntry) × List (Symbols × AggEntry))
    (el : Value) :
    (statsStep acc el).1 =
      setEntry acc.1 el.symbol
        ⟨(getTempEntry acc.1 el.symbol).list ++ [el.value],
         (getTempEntry acc.1 el.symbol).iList ++ [truncQ el.value]⟩ := rfl

/-- The resultMap component produced by one step of the first loop. -/
theorem statsStep_snd (acc : List (Symbols × TempEntry) × List (Symbols × AggEntry))
    (el : Value) :
    (statsStep acc el).2 =
      setEntry acc.2 el.symbol
        { (if (getAggEntry acc.2 el.symbol).max.value < el.value then
             { getAggEntry acc.2 el.symbol with max := el }
           else if el.value < (getAggEntry acc.2 el.symbol).min.value then
             { getAggEntry acc.2 el.symbol with min := el }
           else getAggEntry acc.2 el.symbol) with
          itemCount := (getAggEntry acc.2 el.symbol).itemCount + 1 } := by
  show setEntry acc.2 el.symbol _ = setEntry acc.2 el.symbol _
  congr 1
  split <;> first | rfl | (split <;> rfl)

/-- After the first loop, the tempMap entry of a symbol holds exactly the
values of that symbol's readings (and their truncations), in input order. -/
theorem foldl_tempMap (l : List Value)
    (p : List (Symbols × TempEntry) × List (Symbols × AggEntry)) (s : Symbols) :
    lookupEntry ((l.foldl statsStep p).1) s =
      match lookupEntry p.1 s with
      | some te => some ⟨te.list ++ valsOf s l, te.iList ++ (valsOf s l).map truncQ⟩
      | none =>
        if valsOf s l = [] then none
        else some ⟨valsOf s l, (valsOf s l).map truncQ⟩ := by
  induction l generalizing p with
  | nil =>
    simp only [List.foldl_nil, valsOf]
    cases h : lookupEntry p.1 s <;> simp [h]
  | cons v l ih =>
    rw [List.foldl_cons, ih (statsStep p v)]
    have hstep : lookupEntry (statsStep p v).1 s =
        if v.symbol = s then
          some ⟨(getTempEntry p.1 v.symbol).list ++ [v.value],
               (getTempEntry p.1 v.symbol).iList ++ [truncQ v.value]⟩
        else lookupEntry p.1 s := by
      rw [statsStep_fst, lookupEntry_setEntry]
    by_cases hvs : v.symbol = s
    · subst hvs
      rw [hstep, if_pos rfl]
      cases h : lookupEntry p.1 v.symbol with
      | some te => simp [getTempEntry, h, valsOf]
      | none => simp [getTempEntry, h, valsOf]
    · rw [hstep, if_neg hvs]
      simp only [valsOf, hvs, if_false]

/-- Effect of a dict assignment on the total `itemCount`. -/
theorem countSum_setEntry (m : List (Symbols × AggEntry)) (s : Symbols) (a : AggEntry) :
    countSum (setEntry m s a) + (getAggEntry m s).itemCount = countSum m + a.itemCount := by
  induction m with
  | nil => simp [setEntry, countSum, getAggEntry, lookupEntry]
  | cons kw rest ih =>
    obtain ⟨k, w⟩ := kw
    by_cases hks : k = s
    · subst hks
      simp [setEntry, countSum, getAggEntry, lookupEntry]
      omega
    · simp only [setEntry, if_neg hks, countSum, List.map_cons, List.sum_cons,
        getAggEntry, lookupEntry] at *
      omega

/-- A dict assignment whose entry has one more reading raises the total
`itemCount` by one. -/
theorem countSum_setEntry_incr (m : List (Symbols × AggEntry)) (s : Symbols) (a : AggEntry)
    (ha : a.itemCount = (getAggEntry m s).itemCount + 1) :
    countSum (setEntry m s a) = countSum m + 1 := by
  have h := countSum_setEntry m s a
  omega

/-- Each iteration of the first loop raises the total `itemCount` by one. -/
theorem statsStep_countSum (acc : List (Symbols × TempEntry) × List (Symbols × AggEntry))
    (el : Value) : countSum ((statsStep acc el).2) = countSum acc.2 + 1 := by
  rw [statsStep_snd]
  exact countSum_setEntry_incr _ _ _ rfl

/-- After the first loop, the total `itemCount` grew by the input length. -/
theorem foldl_countSum (l : List Value)
    (p : List (Symbols × TempEntry) × List (Symbols × AggEntry)) :
    countSum ((l.foldl statsStep p).2) = countSum p.2 + l.length := by
  induction l generalizing p with
  | nil => simp
  | cons v l ih =>
    rw [List.foldl_cons, ih (statsStep p v), statsStep_countSum]
    simp only [List.length_cons]
    omega

/-- A symbol that occurs in the input (or was already present) has an entry
in the pass-level result map. -/
theorem foldl_resultMap_some (l : List Value)
    (p : List (Symbols × TempEntry) × List (Symbols × AggEntry)) (s : Symbols)
    (h : (∃ a, lookupEntry p.2 s = some a) ∨ valsOf s l ≠ []) :
    ∃ a, lookupEntry ((l.foldl statsStep p).2) s = some a := by
  induction l generalizing p with
  | nil =>
    rcases h with ⟨a, ha⟩ | hne
    · exact ⟨a, by simpa using ha⟩
    · exact absurd rfl hne
  | cons v l ih =>
    rw [List.foldl_cons]
    apply ih
    by_cases hvs : v.symbol = s
    · exact Or.inl ⟨_, by rw [statsStep_snd, lookupEntry_setEntry, if_pos hvs]⟩
    · rcases h with ⟨a, ha⟩ | hne
      · exact Or.inl ⟨a, by rw [statsStep_snd, lookupEntry_setEntry, if_neg hvs]; exact ha⟩
      · exact Or.inr (by simpa [valsOf, hvs] using hne)

/-- Unfolding of one iteration of the second loop. -/
theorem statsFinish_cons (tm : List (Symbols × TempEntry)) (s : Symbols) (a : AggEntry)
    (rest : List (Symbols × AggEntry)) :
    statsFinish tm ((s, a) :: rest) =
      match stdevE (getTempEntry tm s).list with
      | .error msg => .error msg
      | .ok sv =>
        match statsFinish tm rest with
        | .error msg => .error msg
        | .ok out =>
          .ok ((s, ⟨a.max, a.min, a.itemCount, sv, meanQ (getTempEntry tm s).list,
                    meanQ ((getTempEntry tm s).iList.map (fun i => (Int.cast i : ℚ)))⟩) :: out) := rfl

/-- The second loop copies every `itemCount`, so the finished total equals
the pass-level total. -/
theorem statsFinish_counts (tm : List (Symbols × TempEntry)) (rm : List (Symbols × AggEntry))
    (res : List (Symbols × StatEntry)) (h : statsFinish tm rm = .ok res) :
    resultCountSum res = countSum rm := by
  induction rm generalizing res with
  | nil =>
    simp only [statsFinish] at h
    cases h
    simp [resultCountSum, countSum]
  | cons p rest ih =>
    obtain ⟨s, a⟩ := p
    rw [statsFinish_cons] at h
    split at h
    · exact absurd h (by simp)
    · split at h
      · exact absurd h (by simp)
      · rename_i sv hsv out hout
        cases h
        simp only [resultCountSum, countSum, List.map_cons, List.sum_cons] at *
        rw [ih out hout]

/-- Head lookup in the association-list model. -/
theorem lookupEntry_cons_self {α : Type} (k : Symbols) (v : α) (rest : List (Symbols × α)) :
    lookupEntry ((k, v) :: rest) k = some v := by simp [lookupEntry]

/-- Lookup skips a head with a different key. -/
theorem lookupEntry_cons_ne {α : Type} (k s : Symbols) (v : α) (rest : List (Symbols × α))
    (h : ¬ k = s) : lookupEntry ((k, v) :: rest) s = lookupEntry rest s := by
  simp [lookupEntry, h]

/-- Every finished entry was produced from the pass-level entry of its symbol
and the tempMap lists of that symbol, which held at least two values. -/
theorem statsFinish_lookup (tm : List (Symbols × TempEntry)) (rm : List (Symbols × AggEntry))
    (res : List (Symbols × StatEntry)) (s : Symbols) (e : StatEntry)
    (h : statsFinish tm rm = .ok res) (hl : lookupEntry res s = some e) :
    ∃ a te, lookupEntry rm s = some a ∧ lookupEntry tm s = some te ∧
      2 ≤ te.list.length ∧
      e = ⟨a.max, a.min, a.itemCount, sampleVarQ te.list, meanQ te.list,
           meanQ (te.iList.map (fun i => (Int.cast i : ℚ)))⟩ := by
  induction rm generalizing res with
  | nil =>
    simp only [statsFinish] at h
    cases h
    simp [lookupEntry] at hl
  | cons p rest ih =>
    obtain ⟨k, a⟩ := p
    rw [statsFinish_cons] at h
    split at h
    · exact absurd h (by simp)
    · rename_i sv hsv
      split at h
      · exact absurd h (by simp)
      · rename_i out hout
        cases h
        by_cases hks : k = s
        · subst hks
          rw [lookupEntry_cons_self] at hl
          injection hl with hl
          cases hT : lookupEntry tm k with
          | none =>
            exfalso
            rw [stdevE] at hsv
            simp [getTempEntry, hT] at hsv
          | some te =>
            simp only [getTempEntry, hT] at hsv hl
            rw [stdevE] at hsv
            by_cases hlen : te.list.length < 2
            · rw [if_pos hlen] at hsv
              cases hsv
            · rw [if_neg hlen] at hsv
              injection hsv with hsv
              refine ⟨a, te, lookupEntry_cons_self _ _ _, rfl, by omega, ?_⟩
              rw [← hl, hsv]
        · rw [lookupEntry_cons_ne _ _ _ _ hks] at hl
          obtain ⟨a', te, ha', hte, hlen, he⟩ := ih out hout hl
          exact ⟨a', te, by rw [lookupEntry_cons_ne _ _ _ _ hks]; exact ha', hte, hlen, he⟩

/-- Every pass-level entry survives into the finished map when the second
loop succeeds. -/
theorem statsFinish_total (tm : List (Symbols × TempEntry)) (rm : List (Symbols × AggEntry))
    (res : List (Symbols × StatEntry)) (s : Symbols) (a : AggEntry)
    (h : statsFinish tm rm = .ok res) (hr : lookupEntry rm s = some a) :
    ∃ e, lookupEntry res s = some e := by
  induction rm generalizing res with
  | nil => simp [lookupEntry] at hr
  | cons p rest ih =>
    obtain ⟨k, b⟩ := p
    rw [statsFinish_cons] at h
    split at h
    · exact absurd h (by simp)
    · rename_i sv hsv
      split at h
      · exact absurd h (by simp)
      · rename_i out hout
        cases h
        by_cases hks : k = s
        · subst hks
          exact ⟨_, lookupEntry_cons_self _ _ _⟩
        · rw [lookupEntry_cons_ne _ _ _ _ hks] at hr
          obtain ⟨e, he⟩ := ih out hout hr
          exact ⟨e, by rw [lookupEntry_cons_ne _ _ _ _ hks]; exact he⟩

/-- Every enum symbol is catalogued with precision 2. -/
theorem precisionOfSymbol_eq_two (s : Symbols) : precisionOfSymbol s = 2 := by
  cases s <;> rfl

/-- Every value kept by the row filter is in range and rounded. -/
theorem mem_scanLine (start stop : DateTime) (ft : Symbols)
    (line : Option (DateTime × ℚ)) (v : Value) (h : v ∈ scanLine start stop ft line) :
    GoodVal start stop v := by
  cases line with
  | none => simp [scanLine] at h
  | some p =>
    obtain ⟨t, raw⟩ := p
    rw [scanLine] at h
    by_cases hc : (dtLt t start || dtLt stop t) = true
    · rw [if_pos hc] at h
      simp at h
    · rw [if_neg hc] at h
      simp only [List.mem_singleton] at h
      subst h
      simp only [Bool.or_eq_true, not_or, Bool.not_eq_true] at hc
      refine ⟨hc.1, hc.2, raw, ?_⟩
      rw [Value.make, precisionOfSymbol_eq_two]

/-- `mem_scanLine` lifted to a whole file's lines. -/
theorem mem_scanLines (start stop : DateTime) (ft : Symbols)
    (lines : List (Option (DateTime × ℚ))) (v : Value)
    (h : v ∈ scanLines start stop ft lines) : GoodVal start stop v := by
  induction lines with
  | nil => simp [scanLines] at h
  | cons line rest ih =>
    rw [scanLines] at h
    rcases List.mem_append.mp h with h1 | h2
    · exact mem_scanLine start stop ft line v h1
    · exact ih h2

/-- Every value of a successful file scan is in range and rounded. -/
theorem scanFile_ok_mem (start stop : DateTime) (file : CsvFile) (vs : List Value)
    (h : scanFile start stop file = .ok vs) (v : Value) (hv : v ∈ vs) :
    GoodVal start stop v := by
  rw [scanFile] at h
  split at h
  · cases h
  · split at h
    · cases h
    · injection h with h
      subst h
      exact mem_scanLines _ _ _ _ _ hv

/-- Every element of a successful `collectE` comes from one of the sequenced
scans. -/
theorem collectE_ok_mem {α : Type} (xs : List (Except String (List α))) (l : List α)
    (h : collectE xs = .ok l) (a : α) (ha : a ∈ l) :
    ∃ ys, Except.ok ys ∈ xs ∧ a ∈ ys := by
  induction xs generalizing l with
  | nil =>
    simp only [collectE] at h
    cases h
    simp at ha
  | cons x xs ih =>
    simp only [collectE] at h
    split at h
    · cases h
    · rename_i ys
      split at h
      · cases h
      · rename_i ls hls
        injection h with h
        subst h
        rcases List.mem_append.mp ha with h1 | h2
        · exact ⟨ys, List.mem_cons_self _ _, h1⟩
        · obtain ⟨zs, hzs, hz⟩ := ih ls hls h2
          exact ⟨zs, List.mem_cons_of_mem _ hzs, hz⟩

/-- Every value of a successful day scan is in range and rounded. -/
theorem scanDay_ok_mem (start stop : DateTime) (year month : ℕ) (d : DayDir)
    (vs : List Value) (h : scanDay start stop year month d = .ok vs) (v : Value)
    (hv : v ∈ vs) : GoodVal start stop v := by
  rw [scanDay] at h
  split at h
  · cases h
  · split at h
    · dsimp only at h
      split at h
      · injection h with h
        subst h
        simp at hv
      · obtain ⟨ys, hys, hy⟩ := collectE_ok_mem _ _ h v hv
        obtain ⟨f, _, hf⟩ := List.mem_map.mp hys
        exact scanFile_ok_mem _ _ _ _ hf v hy
    · cases h

/-- Every value of a successful month scan is in range and rounded. -/
theorem scanMonth_ok_mem (start stop : DateTime) (year : ℕ) (m : MonthDir)
    (vs : List Value) (h : scanMonth start stop year m = .ok vs) (v : Value)
    (hv : v ∈ vs) : GoodVal start stop v := by
  rw [scanMonth] at h
  split at h
  · cases h
  · obtain ⟨ys, hys, hy⟩ := collectE_ok_mem _ _ h v hv
    obtain ⟨d, _, hd⟩ := List.mem_map.mp hys
    exact scanDay_ok_mem _ _ _ _ _ _ hd v hy

/-- Every value of a successful year scan is in range and rounded. -/
theorem scanYear_ok_mem (start stop : DateTime) (y : YearDir)
    (vs : List Value) (h : scanYear start stop y = .ok vs) (v : Value)
    (hv : v ∈ vs) : GoodVal start stop v := by
  rw [scanYear] at h
  split at h
  · cases h
  · obtain ⟨ys, hys, hy⟩ := collectE_ok_mem _ _ h v hv
    obtain ⟨m, _, hm⟩ := List.mem_map.mp hys
    exact scanMonth_ok_mem _ _ _ _ _ hm v hy

/-- Every value of a successful archive scan is in range and rounded. -/
theorem betweenDatetimes_ok_mem (archive : List YearDir) (start stop : DateTime)
    (vs : List Value) (h : betweenDatetimes archive start stop = .ok vs) (v : Value)
    (hv : v ∈ vs) : GoodVal start stop v := by
  rw [betweenDatetimes] at h
  obtain ⟨ys, hys, hy⟩ := collectE_ok_mem _ _ h v hv
  obtain ⟨y, _, hyy⟩ := List.mem_map.mp hys
  exact scanYear_ok_mem _ _ _ _ hyy v hy

/-- Claim C1, evaluated at the failing input: on temperature readings with
values 1 then 2, `Stats` succeeds and reports `min.value = 10000000` — the
seeded sentinel `Value(10E6)`, not a reading drawn from the input — so the
claimed bound `min.value ≤ r.value` fails for both readings (the
`elif`-chained update never reaches the `min` branch when `max` is updated,
and the first reading of a symbol always updates `max`). -/
theorem c1_min_left_at_sentinel :
    minValueField (Stats.make c1Input) Symbols.temperature = some 10000000 ∧
    (10000000 : ℚ) ∉ c1Input.map Value.value ∧
    (1 : ℚ) ∈ c1Input.map Value.value := by
  refine ⟨by with_unfolding_all rfl, by with_unfolding_all decide,
    by with_unfolding_all decide⟩

/-- Claim C2, evaluated at the failing input: on a single temperature reading
of value 5, the first pass leaves `min` at the seeded sentinel
(`min.value = 10000000`, with the sentinel's timestamp) although
`itemCount = 1` and `max` holds the reading; the constructor then raises in
`statistics.stdev`, so no aggregate with `max == min == that reading` is ever
produced. -/
theorem c2_single_reading_sentinel_min :
    (passAggOf c2Input Symbols.temperature).map
        (fun a => (a.itemCount, a.max.value, a.min.value)) = some (1, 5, 10000000) ∧
    ∃ msg, Stats.make c2Input = .error msg :=
  ⟨by with_unfolding_all rfl, ⟨_, by with_unfolding_all rfl⟩⟩

/-- Claim C3, evaluated at the failing input: the archived row at
2023-05-10 09:00:00 lies inside [2023-05-10 08:00:00, 2023-05-10 10:00:00],
yet the scan over that interval returns nothing, because the whole day
directory is skipped: its midnight pivot precedes the 08:00:00 `start`.
Scanning the same archive from midnight does return the row, showing it is
reachable and in range. -/
theorem c3_start_straddling_day_dropped :
    dtLe c3Start c3Row = true ∧ dtLe c3Row c3Stop = true ∧
    betweenDatetimes c3Archive c3Start c3Stop = .ok [] ∧
    betweenDatetimes c3Archive c3DayStart c3Stop =
      .ok [Value.make 5 Symbols.temperature c3Row] :=
  ⟨rfl, rfl, rfl, rfl⟩

/-- Claim C4: every value of a successful scan satisfies
`start ≤ timestamp ≤ end`, and a scan over an inverted range
(`start > end`) returns the empty list. -/
theorem c4_range_containment :
    (∀ archive start stop vs, betweenDatetimes archive start stop = .ok vs →
      ∀ v ∈ vs, dtLe start v.instant = true ∧ dtLe v.instant stop = true) ∧
    (∀ archive start stop vs, betweenDatetimes archive start stop = .ok vs →
      dtLt stop start = true → vs = []) := by
  constructor
  · intro archive start stop vs h v hv
    obtain ⟨h1, h2, _⟩ := betweenDatetimes_ok_mem archive start stop vs h v hv
    constructor
    · rw [dtLe, h1]; rfl
    · rw [dtLe, h2]; rfl
  · intro archive start stop vs h hinv
    rw [List.eq_nil_iff_forall_not_mem]
    intro v hv
    obtain ⟨h1, h2, _⟩ := betweenDatetimes_ok_mem archive start stop vs h v hv
    exact dt_absurd start stop v.instant h1 h2 hinv

/-- Witness for C4 at a concrete archive: the one returned reading has its
timestamp within range, and scanning the inverted range returns `[]`. -/
theorem c4_range_containment_witness :
    (dtLe c4Start c4Val.instant = true ∧ dtLe c4Val.instant c4Stop = true) ∧
    ([] : List Value) = [] :=
  ⟨c4_range_containment.1 c4Archive c4Start c4Stop [c4Val] rfl c4Val
     (List.mem_singleton.mpr rfl),
   c4_range_containment.2 c4Archive c4Stop c4Start [] rfl rfl⟩

/-- Claim C5: whenever `Stats` returns a result map, the itemCounts over all
its symbols sum to the input length, and the empty input yields the empty
result map. -/
theorem c5_count_consistency :
    (∀ l res, Stats.make l = .ok res → resultCountSum res = l.length) ∧
    Stats.make [] = .ok [] := by
  constructor
  · intro l res h
    rw [Stats.make] at h
    rw [statsFinish_counts _ _ _ h]
    show countSum ((l.foldl statsStep ([], [])).2) = l.length
    rw [foldl_countSum]
    simp [countSum]
  · rfl

/-- Witness for C5: on two temperature readings the finished counts sum to
the input length 2. -/
theorem c5_count_consistency_witness : resultCountSum c5Res = c5Input.length :=
  c5_count_consistency.1 c5Input c5Res (by with_unfolding_all rfl)

/-- Claim C6: whenever `Stats` succeeds, the field labeled `mode` of every
present symbol's aggregate equals the arithmetic mean of the integer-truncated
values of that symbol's readings; on values 1, 1, 4 it comes out as 2, which
is not even a value occurring in the input (so certainly not the most
frequent value, which is 1). -/
theorem c6_mode_is_truncated_mean :
    (∀ l res s e, Stats.make l = .ok res → lookupEntry res s = some e →
      e.mode = meanQ ((valsOf s l).map (fun q => ((truncQ q : ℤ) : ℚ)))) ∧
    (modeField (Stats.make c6Input) Symbols.temperature = some 2 ∧
     (2 : ℚ) ∉ c6Input.map Value.value) := by
  constructor
  · intro l res s e h hl
    rw [Stats.make] at h
    obtain ⟨a, te, _, hte, _, he⟩ := statsFinish_lookup _ _ _ _ _ h hl
    have htm := foldl_tempMap l ([], []) s
    simp only [lookupEntry] at htm
    rw [statsPass] at hte
    rw [htm] at hte
    by_cases hne : valsOf s l = []
    · rw [if_pos hne] at hte; cases hte
    · rw [if_neg hne] at hte
      injection hte with hte
      rw [he, ← hte, List.map_map]
      rfl
  · exact ⟨by with_unfolding_all rfl, by with_unfolding_all decide⟩

/-- Witness for C6: the finished aggregate on values 1, 1, 4 has `mode = 2`,
the mean of the truncations. -/
theorem c6_mode_is_truncated_mean_witness :
    c6Entry.mode =
      meanQ ((valsOf Symbols.temperature c6Input).map (fun q => ((truncQ q : ℤ) : ℚ))) :=
  c6_mode_is_truncated_mean.1 c6Input c6Res Symbols.temperature c6Entry
    (by with_unfolding_all rfl) rfl

/-- Claim C7: a symbol with exactly one reading makes the whole construction
raise (inside `statistics.stdev`); when construction succeeds, every present
symbol had at least two readings and its recorded `stdevSq` — the square of
the code's `stdev` — is the sample variance of that symbol's raw values. -/
theorem c7_single_sample_stdev :
    (∀ l s, (valsOf s l).length = 1 → ∃ msg, Stats.make l = .error msg) ∧
    (∀ l res s e, Stats.make l = .ok res → lookupEntry res s = some e →
      2 ≤ (valsOf s l).length ∧ e.stdevSq = sampleVarQ (valsOf s l)) := by
  constructor
  · intro l s hone
    cases hmk : Stats.make l with
    | error msg => exact ⟨msg, rfl⟩
    | ok res =>
      exfalso
      rw [Stats.make] at hmk
      have hne : valsOf s l ≠ [] := by
        intro hh; rw [hh] at hone; simp at hone
      obtain ⟨a, ha⟩ := foldl_resultMap_some l ([], []) s (Or.inr hne)
      obtain ⟨e, he⟩ := statsFinish_total _ _ _ _ _ hmk ha
      obtain ⟨a', te, _, hte, hlen, _⟩ := statsFinish_lookup _ _ _ _ _ hmk he
      have htm := foldl_tempMap l ([], []) s
      simp only [lookupEntry] at htm
      rw [statsPass] at hte
      rw [htm] at hte
      rw [if_neg hne] at hte
      injection hte with hte
      rw [← hte] at hlen
      have hlen2 : 2 ≤ (valsOf s l).length := hlen
      omega
  · intro l res s e h hl
    rw [Stats.make] at h
    obtain ⟨a, te, _, hte, hlen, he⟩ := statsFinish_lookup _ _ _ _ _ h hl
    have htm := foldl_tempMap l ([], []) s
    simp only [lookupEntry] at htm
    rw [statsPass] at hte
    rw [htm] at hte
    by_cases hne : valsOf s l = []
    · rw [if_pos hne] at hte; cases hte
    · rw [if_neg hne] at hte
      injection hte with hte
      constructor
      · rw [← hte] at hlen
        exact hlen
      · rw [he, ← hte]

/-- Witness for C7: one single-reading input makes `Stats` raise; on a
two-reading input the success side holds. -/
theorem c7_single_sample_stdev_witness :
    (∃ msg, Stats.make c7Input = .error msg) ∧
    (2 ≤ (valsOf Symbols.temperature c7Pair).length ∧
     c7PairEntry.stdevSq = sampleVarQ (valsOf Symbols.temperature c7Pair)) :=
  ⟨c7_single_sample_stdev.1 c7Input Symbols.pressure (by with_unfolding_all rfl),
   c7_single_sample_stdev.2 c7Pair c7PairRes Symbols.temperature c7PairEntry
     (by with_unfolding_all rfl) rfl⟩

/-- Claim C8: every catalog entry declares precision 2; every constructed
reading stores its input rounded to that precision (e.g. 12.3456 becomes
12.35); and every reading produced by a scan has a value of that rounded
form. -/
theorem c8_rounding :
    (∀ dt ∈ DataTypeArchive.data, dt.precision = 2) ∧
    (∀ (q : ℚ) (s : Symbols) (t : DateTime), (Value.make q s t).value = pyRound q 2) ∧
    (Value.make (123456/10000) Symbols.temperature instA).value = 1235/100 ∧
    (∀ archive start stop vs, betweenDatetimes archive start stop = .ok vs →
      ∀ v ∈ vs, ∃ raw : ℚ, v.value = pyRound raw 2) := by
  refine ⟨by decide, ?_, by with_unfolding_all rfl, ?_⟩
  · intro q s t
    rw [Value.make, precisionOfSymbol_eq_two]
  · intro archive start stop vs h v hv
    exact (betweenDatetimes_ok_mem archive start stop vs h v hv).2.2

/-- Witness for C8: the temperature catalog entry has precision 2, and the
reading scanned from a raw 12.3456 has a two-decimal rounded value. -/
theorem c8_rounding_witness :
    (DataType.mk "T" "°C" "temperature.csv" "Temperatura" 2).precision = 2 ∧
    (∃ raw : ℚ, c8Val.value = pyRound raw 2) :=
  ⟨c8_rounding.1 _ (by decide),
   c8_rounding.2.2.2 c8Archive c8Start c8Stop [c8Val] (by with_unfolding_all rfl) c8Val
     (List.mem_singleton.mpr rfl)⟩

/-- Claim C9: for every entry of the fixed catalog, looking up its file name
and then the symbol of the result returns the entry itself. -/
theorem c9_catalog_roundtrip :
    ∀ dt ∈ DataTypeArchive.data,
      (DataTypeArchive.fromFileName dt.fileName).bind
        (fun e => DataTypeArchive.fromSymbol e.symbol) = some dt := by
  decide

/-- Witness for C9 at the temperature entry. -/
theorem c9_catalog_roundtrip_witness :
    (DataTypeArchive.fromFileName
        (DataType.mk "T" "°C" "temperature.csv" "Temperatura" 2).fileName).bind
      (fun e => DataTypeArchive.fromSymbol e.symbol) =
      some (DataType.mk "T" "°C" "temperature.csv" "Temperatura" 2) :=
  c9_catalog_roundtrip _ (by decide)

/-- Claim C10: a year directory whose name does not start with `2` is
invisible to `betweenDatetimes` (the glob is `dati/2*`): appending such a
directory to the archive leaves every scan result unchanged, whatever
readings it holds. -/
theorem c10_year_glob (archive : List YearDir) (y : YearDir) (start stop : DateTime)
    (h : startsWith2 y.name = false) :
    betweenDatetimes (archive ++ [y]) start stop = betweenDatetimes archive start stop := by
  simp [betweenDatetimes, List.filter_append, List.filter_cons, h]

/-- Witness for C10: a `1999` directory holding an in-range reading
contributes nothing. -/
theorem c10_year_glob_witness :
    betweenDatetimes ([] ++ [c10Year]) c10Start c10Stop =
      betweenDatetimes [] c10Start c10Stop :=
  c10_year_glob [] c10Year c10Start c10Stop rfl
